import Mathlib

/-!
Shallow embedding of the AudioBlend auto-mixing engine (C++ sources under
`src/cpp`) in Lean 4, together with theorems settling the specification
claims.  Machine `float` arithmetic is modelled over `ℝ`; sizes and indices
over `ℕ`; the pure integer arithmetic of the spectrum analyzer over `ℚ`.
-/

namespace AudioBlend

/-- Planar multi-channel sample buffer, from `core/audio_buffer.h`.
`channels` and `samples` mirror the `channels_` and `samples_` members;
`data` mirrors `data_` (one list per channel plane). -/
structure AudioBuffer where
  channels : ℕ
  samples : ℕ
  data : List (List ℝ)

/-- Constructor `AudioBuffer(channels, samples)`: `channels` planes of
`samples` zero samples each. -/
def AudioBuffer.new (channels samples : ℕ) : AudioBuffer :=
  ⟨channels, samples, List.replicate channels (List.replicate samples 0)⟩

/-- Read access to one channel plane (`getChannelData`); out-of-range reads,
which would be undefined behaviour in the C++, are totalized to `[]`. -/
def AudioBuffer.channelData (b : AudioBuffer) (ch : ℕ) : List ℝ :=
  b.data.getD ch []

/-- Operation `AudioBuffer::applyGain`: multiply every sample in every channel
plane by `gain` (the SIMD path computes the same per-sample products). -/
noncomputable def AudioBuffer.applyGain (b : AudioBuffer) (gain : ℝ) : AudioBuffer :=
  { b with data := b.data.map (fun row => row.map (fun x => x * gain)) }

/-- Operation `AudioBuffer::addFrom`: for `ch < min(channels, other.channels)`
and `i < min(samples, other.samples)`, `self[ch][i] += other[ch][i] * gain`;
all other entries are untouched. -/
noncomputable def AudioBuffer.addFrom (b : AudioBuffer) (other : AudioBuffer) (gain : ℝ) :
    AudioBuffer :=
  let numChannels := min b.channels other.channels
  let numSamples := min b.samples other.samples
  { b with data := (List.range b.data.length).map (fun ch =>
      let row := b.data.getD ch []
      if ch < numChannels then
        (List.range row.length).map (fun i =>
          if i < numSamples then row.getD i 0 + (other.data.getD ch []).getD i 0 * gain
          else row.getD i 0)
      else row) }

/-- Settings structure `AutoMixerSettings` with the default member values of
`dsp/auto_mixer.h`. -/
structure AutoMixerSettings where
  targetLUFS : ℝ := -16
  maxGainReduction : ℝ := 12
  frequencySeparation : ℝ := 3
  enableDynamicEQ : Bool := true
  enableSpatialProcessing : Bool := true
  mixBusCompRatio : ℝ := 2
  mixBusCompThreshold : ℝ := -6

/-- Compressor settings (`effects/compressor.h`) with their default member
values. -/
structure CompressorSettings where
  threshold : ℝ := -12
  ratio : ℝ := 4
  attack : ℝ := 10
  release : ℝ := 100
  knee : ℝ := 2
  makeupGain : ℝ := 0

/-- Function `AutoMixer::measureLUFS`: accumulate the sum of squares and a
sample counter over every channel plane, then
`-0.691 + 10*log10(sum/count + 1e-10)`.  The running pair mirrors the
`sum` / `totalSamples` locals of the C++ loop. -/
noncomputable def AutoMixer.measureLUFS (b : AudioBuffer) : ℝ :=
  let acc := (List.range b.channels).foldl (fun (a : ℝ × ℕ) ch =>
    (List.range b.samples).foldl (fun (a2 : ℝ × ℕ) i =>
      (a2.1 + (b.channelData ch).getD i 0 * (b.channelData ch).getD i 0, a2.2 + 1)) a)
    ((0 : ℝ), (0 : ℕ))
  let meanSquare := acc.1 / (acc.2 : ℝ)
  let lufs : ℝ := -0.691 + 10 * Real.logb 10 (meanSquare + 1e-10)
  lufs

/-- Function `AutoMixer::calculateOptimalLevels`: per-track LUFS, the (unused)
average, and per-track linear gains
`10 ^ (max (targetLUFS - lufs) (-maxGainReduction) / 20)`. -/
noncomputable def AutoMixer.calculateOptimalLevels (s : AutoMixerSettings)
    (tracks : List AudioBuffer) : List ℝ :=
  let lufsValues := tracks.map AutoMixer.measureLUFS
  let _avgLUFS := lufsValues.sum / (lufsValues.length : ℝ)
  lufsValues.map (fun lufs =>
    (10 : ℝ) ^ (max (s.targetLUFS - lufs) (-s.maxGainReduction) / 20))

/-- Filter type enumeration of `EQBand::Type` (`effects/equalizer.h`). -/
inductive EQBandType where
  | PEAK
  | HIGH_SHELF
  | LOW_SHELF
  | HIGH_PASS
  | LOW_PASS
deriving DecidableEq

/-- EQ band parameters (`effects/equalizer.h`) with their default member
values. -/
structure EQBand where
  frequency : ℝ := 1000
  gain : ℝ := 0
  q : ℝ := 0.7
  type : EQBandType := .PEAK

/-- Biquad coefficients (`Equalizer::BiquadCoeffs`); the field names mirror
the C++ members (`a0..a2` are the normalized numerator, `b1, b2` the
normalized denominator). -/
structure BiquadCoeffs where
  a0 : ℝ
  a1 : ℝ
  a2 : ℝ
  b1 : ℝ
  b2 : ℝ

/-- Biquad filter state (`Equalizer::BiquadState`), zero-initialized. -/
structure BiquadState where
  x1 : ℝ := 0
  x2 : ℝ := 0
  y1 : ℝ := 0
  y2 : ℝ := 0

/-- One cascade section.  The C++ keeps three parallel vectors `bands_`,
`coeffs_`, `states_` that are always resized and indexed together (the class
invariant is that they share one length); bundling them into one list of
sections encodes exactly that invariant. -/
structure EqSection where
  band : EQBand
  coeffs : BiquadCoeffs
  state : BiquadState

/-- Equalizer object state: the biquad cascade. -/
structure Equalizer where
  sections : List EqSection

/-- Semantics of `std::vector::resize(n)`: keep the first `n` elements and
value-initialize any new ones with `d`. -/
def listResize {α : Type} (l : List α) (n : ℕ) (d : α) : List α :=
  l.take n ++ List.replicate (n - l.length) d

/-- Section created by `resize` in `Equalizer::setBand`: a default-constructed
band, value-initialized (all-zero) coefficients and a zero state. -/
noncomputable def EqSection.fresh : EqSection :=
  ⟨{}, ⟨0, 0, 0, 0, 0⟩, {}⟩

/-- Function `Equalizer::calculateCoeffs`: RBJ peaking-EQ coefficients
normalized by `a0`; every non-PEAK type is realized as an identity section. -/
noncomputable def Equalizer.calculateCoeffs (band : EQBand) (sampleRate : ℝ) : BiquadCoeffs :=
  let omega := 2 * Real.pi * band.frequency / sampleRate
  let sin_omega := Real.sin omega
  let cos_omega := Real.cos omega
  let alpha := sin_omega / (2 * band.q)
  let A := (10 : ℝ) ^ (band.gain / 40)
  match band.type with
  | .PEAK =>
    let b0 := 1 + alpha * A
    let b1 := -2 * cos_omega
    let b2 := 1 - alpha * A
    let a0 := 1 + alpha / A
    let a1 := -2 * cos_omega
    let a2 := 1 - alpha / A
    ⟨b0 / a0, b1 / a0, b2 / a0, a1 / a0, a2 / a0⟩
  | _ => ⟨1, 0, 0, 0, 0⟩

/-- Function `Equalizer::updateCoefficients`: recompute the coefficients of
every section from its band; states are not touched. -/
noncomputable def Equalizer.updateCoefficients (eq : Equalizer) (sampleRate : ℝ) : Equalizer :=
  ⟨eq.sections.map (fun sec => { sec with coeffs := Equalizer.calculateCoeffs sec.band sampleRate })⟩

/-- Function `Equalizer::setBand`: grow the cascade to `index + 1` sections
when `index` is out of range, overwrite the band at `index`, and recompute all
coefficients (at the default 48 kHz sample rate).  No state is reset. -/
noncomputable def Equalizer.setBand (eq : Equalizer) (index : ℕ) (band : EQBand) : Equalizer :=
  let secs1 :=
    if eq.sections.length ≤ index then listResize eq.sections (index + 1) EqSection.fresh
    else eq.sections
  let secs2 := secs1.set index { secs1.getD index EqSection.fresh with band := band }
  Equalizer.updateCoefficients ⟨secs2⟩ 48000

/-- Function `Equalizer::clearBands`. -/
def Equalizer.clearBands (_eq : Equalizer) : Equalizer := ⟨[]⟩

/-- Inner loop of `Equalizer::process` for one section: Direct Form I biquad
with persistent state, sample by sample. -/
noncomputable def bandRun (c : BiquadCoeffs) : BiquadState → List ℝ → List ℝ × BiquadState
  | s, [] => ([], s)
  | s, x :: xs =>
    let y := c.a0 * x + c.a1 * s.x1 + c.a2 * s.x2 - c.b1 * s.y1 - c.b2 * s.y2
    let rest := bandRun c ⟨x, s.x1, y, s.y1⟩ xs
    (y :: rest.1, rest.2)

/-- Outer loop of `Equalizer::process`: the sections are applied in series,
each one reading and writing its own state. -/
noncomputable def runSections : List EqSection → List ℝ → List ℝ × List EqSection
  | [], data => (data, [])
  | sec :: rest, data =>
    let p := bandRun sec.coeffs sec.state data
    let q := runSections rest p.1
    (q.1, { sec with state := p.2 } :: q.2)

/-- Function `Equalizer::process`: in-place block processing, modelled as
returning the transformed samples together with the updated object state. -/
noncomputable def Equalizer.process (eq : Equalizer) (data : List ℝ) : List ℝ × Equalizer :=
  let p := runSections eq.sections data
  (p.1, ⟨p.2⟩)

/-- Sequential processing of a list of contiguous chunks through one equalizer
object, concatenating the outputs (the caller-side chunking protocol). -/
noncomputable def Equalizer.processChunks (eq : Equalizer) (chunks : List (List ℝ)) :
    List ℝ × Equalizer :=
  chunks.foldl (fun acc chunk =>
    let p := Equalizer.process acc.2 chunk
    (acc.1 ++ p.1, p.2)) ([], eq)

/-- Compressor runtime state (`envelope_` and `currentGainReduction_`). -/
structure CompressorState where
  envelope : ℝ
  currentGainReduction : ℝ

/-- Attack coefficient from `Compressor::updateCoefficients` at the default
48 kHz sample rate: `exp(-1 / (attack_ms * fs / 1000))`. -/
noncomputable def Compressor.attackCoeff (s : CompressorSettings) (sampleRate : ℝ) : ℝ :=
  Real.exp (-1 / (s.attack * sampleRate / 1000))

/-- Release coefficient from `Compressor::updateCoefficients`. -/
noncomputable def Compressor.releaseCoeff (s : CompressorSettings) (sampleRate : ℝ) : ℝ :=
  Real.exp (-1 / (s.release * sampleRate / 1000))

/-- Function `Compressor::computeGain`: soft-knee static curve on the input
level, returning the linear gain `10^((-gr + makeup)/20)`. -/
noncomputable def Compressor.computeGain (s : CompressorSettings) (inputLevel : ℝ) : ℝ :=
  let inputDb := 20 * Real.logb 10 (max inputLevel 1e-10)
  let kneeStart := s.threshold - s.knee / 2
  let kneeEnd := s.threshold + s.knee / 2
  let gainReduction : ℝ :=
    if kneeEnd < inputDb then
      (inputDb - s.threshold) * (1 - 1 / s.ratio)
    else if kneeStart < inputDb then
      let kneeProgress := (inputDb - kneeStart) / s.knee
      (inputDb - s.threshold) * (1 - 1 / s.ratio) * kneeProgress * kneeProgress
    else 0
  (10 : ℝ) ^ ((-gainReduction + s.makeupGain) / 20)

/-- One iteration of the `Compressor::process` loop: branching one-pole
envelope update, gain computation, output sample and meter update. -/
noncomputable def Compressor.processSample (s : CompressorSettings) (sampleRate : ℝ)
    (st : CompressorState) (x : ℝ) : ℝ × CompressorState :=
  let inputLevel := |x|
  let env :=
    if st.envelope < inputLevel then
      inputLevel + (st.envelope - inputLevel) * Compressor.attackCoeff s sampleRate
    else
      inputLevel + (st.envelope - inputLevel) * Compressor.releaseCoeff s sampleRate
  let gain := Compressor.computeGain s env
  (x * gain, ⟨env, 20 * Real.logb 10 gain⟩)

/-- Function `Compressor::process` over a block of samples. -/
noncomputable def Compressor.process (s : CompressorSettings) (sampleRate : ℝ) :
    CompressorState → List ℝ → List ℝ × CompressorState
  | st, [] => ([], st)
  | st, x :: xs =>
    let p := Compressor.processSample s sampleRate st x
    let rest := Compressor.process s sampleRate p.2 xs
    (p.1 :: rest.1, rest.2)

/-- Function `SpectrumAnalyzer::getFrequencyBin`
(`dsp/spectrum_analyzer.cpp`): `static_cast<size_t>(frequency * fftSize /
sampleRate)`, i.e. truncation of the quotient toward zero. -/
def SpectrumAnalyzer.getFrequencyBin (fftSize : ℕ) (frequency sampleRate : ℚ) : ℕ :=
  (⌊frequency * (fftSize : ℚ) / sampleRate⌋).toNat

/-- Function `SpectrumAnalyzer::getBinFrequency`: `bin * sampleRate / fftSize`. -/
def SpectrumAnalyzer.getBinFrequency (fftSize : ℕ) (bin : ℕ) (sampleRate : ℚ) : ℚ :=
  (bin : ℚ) * sampleRate / (fftSize : ℚ)

/-- Function `AutoMixer::resolveFrequencyConflicts`: append to each track's
band list a PEAK band at `1000 * (i + 1)` Hz with gain 2 dB and Q 0.7. -/
noncomputable def AutoMixer.resolveFrequencyConflicts (tracks : List AudioBuffer)
    (eqSettings : List (List EQBand)) : List (List EQBand) :=
  (List.range tracks.length).map (fun i =>
    eqSettings.getD i [] ++ [{ frequency := 1000 * ((i : ℝ) + 1), gain := 2, q := 0.7,
                               type := .PEAK }])

/-- Function `AutoMixer::calculatePanPositions`: a single track is centered;
otherwise the positions are spaced evenly across `[-0.8, 0.8]`. -/
noncomputable def AutoMixer.calculatePanPositions (tracks : List AudioBuffer) : List ℝ :=
  if tracks.length = 1 then [0]
  else
    let panRange : ℝ := 0.8
    let step := 2 * panRange / ((tracks.length : ℝ) - 1)
    (List.range tracks.length).map (fun i => -panRange + (i : ℝ) * step)

/-- Mix parameters produced by analysis (`AutoMixer::MixParameters`). -/
structure MixParameters where
  trackGains : List ℝ
  trackEQs : List (List EQBand)
  panPositions : List ℝ
  mixBusCompressor : CompressorSettings

/-- Function `AutoMixer::analyzeTracks`: per-track gains, EQ plans, pan
positions, and the mix-bus compressor settings (threshold and ratio from the
mixer settings, attack 10 ms, release 100 ms; the remaining fields keep the
`CompressorSettings` defaults, knee 2 dB and makeup 0 dB). -/
noncomputable def AutoMixer.analyzeTracks (s : AutoMixerSettings) (tracks : List AudioBuffer) :
    MixParameters :=
  let trackGains := AutoMixer.calculateOptimalLevels s tracks
  let trackEQs0 : List (List EQBand) := List.replicate tracks.length []
  let trackEQs :=
    if s.enableDynamicEQ then AutoMixer.resolveFrequencyConflicts tracks trackEQs0
    else trackEQs0
  let panPositions :=
    if s.enableSpatialProcessing then AutoMixer.calculatePanPositions tracks
    else List.replicate tracks.length 0
  { trackGains := trackGains
    trackEQs := trackEQs
    panPositions := panPositions
    mixBusCompressor := { threshold := s.mixBusCompThreshold, ratio := s.mixBusCompRatio,
                          attack := 10, release := 100 } }

/-- Function `AutoMixer::process` (`dsp/auto_mixer.cpp`): empty input yields a
`(2, 0)` buffer; otherwise analyze the tracks, allocate a stereo bus whose
length is the maximum track length, and per track apply the planned gain and
`addFrom` the result into the bus.  In the source the EQ stage, the panning
stage and the mix-bus compression stage are empty placeholders (comments
only), so the returned buffer is the bus sum of the gain-scaled tracks with
no EQ, panning or compression applied. -/
noncomputable def AutoMixer.process (s : AutoMixerSettings) (tracks : List AudioBuffer) :
    AudioBuffer :=
  if tracks.isEmpty then AudioBuffer.new 2 0
  else
    let mixParams := AutoMixer.analyzeTracks s tracks
    let maxSamples := tracks.foldl (fun m t => max m t.samples) 0
    let mixBus := AudioBuffer.new 2 maxSamples
    (List.range tracks.length).foldl (fun bus i =>
      let trackCopy := (tracks.getD i (AudioBuffer.new 0 0)).applyGain
        (mixParams.trackGains.getD i 0)
      bus.addFrom trackCopy 1) mixBus

/-- Guarded-division variant of `AutoMixer.measureLUFS`: identical
accumulation, but the mean-square division is taken only when the divisor
`totalSamples` is nonzero; otherwise the division-by-zero branch `none` is
reached. -/
noncomputable def AutoMixer.measureLUFSChecked (b : AudioBuffer) : Option ℝ :=
  let acc := (List.range b.channels).foldl (fun (a : ℝ × ℕ) ch =>
    (List.range b.samples).foldl (fun (a2 : ℝ × ℕ) i =>
      (a2.1 + (b.channelData ch).getD i 0 * (b.channelData ch).getD i 0, a2.2 + 1)) a)
    ((0 : ℝ), (0 : ℕ))
  if acc.2 = 0 then none
  else
    let meanSquare := acc.1 / (acc.2 : ℝ)
    let lufs : ℝ := -0.691 + 10 * Real.logb 10 (meanSquare + 1e-10)
    some lufs

/-- Guarded-division variant of `AutoMixer.calculateOptimalLevels`: the
average-LUFS division is taken only when the track count is nonzero, and the
per-track loudness measurements use the guarded `measureLUFSChecked`. -/
noncomputable def AutoMixer.calculateOptimalLevelsChecked (s : AutoMixerSettings)
    (tracks : List AudioBuffer) : Option (List ℝ) :=
  match tracks.mapM AutoMixer.measureLUFSChecked with
  | none => none
  | some lufsValues =>
    if lufsValues.length = 0 then none
    else
      let _avgLUFS := lufsValues.sum / (lufsValues.length : ℝ)
      some (lufsValues.map (fun lufs =>
        (10 : ℝ) ^ (max (s.targetLUFS - lufs) (-s.maxGainReduction) / 20)))

/-- Loudness formula exactly as the specification sentence words it: the mean
square is floored at `1e-10` (`max ms 1e-10`) instead of having `1e-10`
added to it.  Declared only to be compared against `AutoMixer.measureLUFS`. -/
noncomputable def specFlooredLUFS (b : AudioBuffer) : ℝ :=
  let acc := (List.range b.channels).foldl (fun (a : ℝ × ℕ) ch =>
    (List.range b.samples).foldl (fun (a2 : ℝ × ℕ) i =>
      (a2.1 + (b.channelData ch).getD i 0 * (b.channelData ch).getD i 0, a2.2 + 1)) a)
    ((0 : ℝ), (0 : ℕ))
  let lufs : ℝ := -0.691 + 10 * Real.logb 10 (max (acc.1 / (acc.2 : ℝ)) 1e-10)
  lufs

/-- Per-track gains computed with the specification's floored loudness
formula; the gain law itself is unchanged. -/
noncomputable def specFlooredGains (s : AutoMixerSettings) (tracks : List AudioBuffer) :
    List ℝ :=
  tracks.map (fun t =>
    (10 : ℝ) ^ (max (s.targetLUFS - specFlooredLUFS t) (-s.maxGainReduction) / 20))

/-- Soft-knee static gain-reduction curve exactly as the specification states
it, as a function of the level in dB: zero at or below the knee start, the
full-ratio line at or above the knee end, and the squared-interpolation braid
in between. -/
noncomputable def softKneeGR (T R W level : ℝ) : ℝ :=
  if level ≤ T - W / 2 then 0
  else if T + W / 2 ≤ level then (level - T) * (1 - 1 / R)
  else (level - T) * (1 - 1 / R) * ((level - (T - W / 2)) / W) ^ 2

/-- Mean square of a buffer written as a mathematical double sum over channel
and sample indices, divided by `channels * samples`. -/
noncomputable def AudioBuffer.meanSquare (b : AudioBuffer) : ℝ :=
  (∑ ch ∈ Finset.range b.channels, ∑ i ∈ Finset.range b.samples,
    (b.channelData ch).getD i 0 * (b.channelData ch).getD i 0) /
  ((b.channels * b.samples : ℕ) : ℝ)

/-! Helper lemmas about list reads used by the equalizer theorems. -/

/-- Reading with a default after `List.set`: position `i` becomes the written
value when it is in range, every other read is unchanged. -/
theorem getD_set_eq_ite {α : Type} (l : List α) (i j : ℕ) (a d : α) :
    (l.set i a).getD j d = if i = j ∧ i < l.length then a else l.getD j d := by
  rw [List.getD_eq_getElem?_getD, List.getElem?_set]
  rcases eq_or_ne i j with rfl | hij
  · rcases lt_or_le i l.length with h | h
    · simp [h]
    · simp [h, Nat.not_lt.mpr h, List.getD_eq_default _ _ h, List.getElem?_eq_none h]
  · simp [hij, List.getD_eq_getElem?_getD]

/-- Growing `resize` with default `d` changes no read that uses `d` as its
default. -/
theorem getD_listResize_of_le {α : Type} (l : List α) (n : ℕ) (d : α) (j : ℕ)
    (h : l.length ≤ n) : (listResize l n d).getD j d = l.getD j d := by
  unfold listResize
  rw [List.take_of_length_le h]
  rcases lt_or_le j l.length with hj | hj
  · exact List.getD_append _ _ _ _ hj
  · rw [List.getD_append_right _ _ _ _ hj, List.getD_eq_default _ _ hj,
      List.getD_eq_getElem?_getD]
    simp

/-- Length of `listResize`: `resize` always yields exactly `n` elements. -/
theorem length_listResize {α : Type} (l : List α) (n : ℕ) (d : α) :
    (listResize l n d).length = n := by
  unfold listResize
  simp only [List.length_append, List.length_take, List.length_replicate]
  omega

/-- Reading the `state` field through the coefficient-recomputation map: the
map rewrites only `coeffs`, so `state` reads are unchanged. -/
theorem getD_map_coeffs_state (L : List EqSection) (sr : ℝ) (j : ℕ) :
    ((L.map (fun sec => { sec with
        coeffs := Equalizer.calculateCoeffs sec.band sr })).getD j EqSection.fresh).state
      = (L.getD j EqSection.fresh).state := by
  rcases lt_or_le j L.length with hj | hj
  · rw [List.getD_eq_getElem _ _ (by simpa using hj), List.getD_eq_getElem _ _ hj,
      List.getElem_map]
  · rw [List.getD_eq_default _ _ (by simpa using hj), List.getD_eq_default _ _ hj]

/-- Reading the `band` field through the coefficient-recomputation map. -/
theorem getD_map_coeffs_band (L : List EqSection) (sr : ℝ) (j : ℕ) :
    ((L.map (fun sec => { sec with
        coeffs := Equalizer.calculateCoeffs sec.band sr })).getD j EqSection.fresh).band
      = (L.getD j EqSection.fresh).band := by
  rcases lt_or_le j L.length with hj | hj
  · rw [List.getD_eq_getElem _ _ (by simpa using hj), List.getD_eq_getElem _ _ hj,
      List.getElem_map]
  · rw [List.getD_eq_default _ _ (by simpa using hj), List.getD_eq_default _ _ hj]

/-- Reading the `coeffs` field through the coefficient-recomputation map, for
an in-range section. -/
theorem getD_map_coeffs_coeffs (L : List EqSection) (sr : ℝ) (j : ℕ) (hj : j < L.length) :
    ((L.map (fun sec => { sec with
        coeffs := Equalizer.calculateCoeffs sec.band sr })).getD j EqSection.fresh).coeffs
      = Equalizer.calculateCoeffs ((L.getD j EqSection.fresh).band) sr := by
  rw [List.getD_eq_getElem _ _ (by simpa using hj), List.getD_eq_getElem _ _ hj,
    List.getElem_map]

/-- The cascade after the conditional grow step of `setBand`, as a list. -/
noncomputable def setBandPre (eq : Equalizer) (index : ℕ) : List EqSection :=
  if eq.sections.length ≤ index then listResize eq.sections (index + 1) EqSection.fresh
  else eq.sections

/-- Unfolded form of `setBand` in terms of the grow step. -/
theorem setBand_eq_pre (eq : Equalizer) (index : ℕ) (band : EQBand) :
    Equalizer.setBand eq index band
      = Equalizer.updateCoefficients
          ⟨(setBandPre eq index).set index
            { (setBandPre eq index).getD index EqSection.fresh with band := band }⟩ 48000 := rfl

/-- Reads from the grown cascade agree with reads from the original one. -/
theorem setBandPre_getD (eq : Equalizer) (index : ℕ) (j : ℕ) :
    (setBandPre eq index).getD j EqSection.fresh
      = eq.sections.getD j EqSection.fresh := by
  unfold setBandPre
  rcases le_or_lt eq.sections.length index with h | h
  · rw [if_pos h]
    exact getD_listResize_of_le _ _ _ _ (Nat.le_succ_of_le h)
  · rw [if_neg (Nat.not_le.mpr h)]

/-- The write index is always in range after the grow step. -/
theorem setBandPre_lt_length (eq : Equalizer) (index : ℕ) :
    index < (setBandPre eq index).length := by
  unfold setBandPre
  rcases le_or_lt eq.sections.length index with h | h
  · rw [if_pos h, length_listResize]
    omega
  · rw [if_neg (Nat.not_le.mpr h)]
    exact h

/-- Cascade length after `setBand`. -/
theorem setBand_length (eq : Equalizer) (index : ℕ) (band : EQBand) :
    (Equalizer.setBand eq index band).sections.length
      = max (index + 1) eq.sections.length := by
  rw [setBand_eq_pre]
  unfold Equalizer.updateCoefficients setBandPre
  rcases le_or_lt eq.sections.length index with h | h
  · rw [if_pos h]
    simp only [List.length_map, List.length_set, length_listResize]
    omega
  · rw [if_neg (Nat.not_le.mpr h)]
    simp only [List.length_map, List.length_set]
    omega

/-- States after `setBand`: every section's filter state reads back exactly as
before.  In particular section `index` is not reset; the sections created by
the grow step carry the zero state, which coincides with the default read. -/
theorem setBand_getD_state (eq : Equalizer) (index : ℕ) (band : EQBand) (j : ℕ) :
    ((Equalizer.setBand eq index band).sections.getD j EqSection.fresh).state
      = (eq.sections.getD j EqSection.fresh).state := by
  rw [setBand_eq_pre]
  unfold Equalizer.updateCoefficients
  rw [getD_map_coeffs_state, getD_set_eq_ite]
  split_ifs with h
  · obtain ⟨rfl, _⟩ := h
    show ((setBandPre eq index).getD index EqSection.fresh).state
        = (eq.sections.getD index EqSection.fresh).state
    exact congrArg EqSection.state (setBandPre_getD eq index index)
  · exact congrArg EqSection.state (setBandPre_getD eq index j)

/-- Bands after `setBand`: position `index` holds the new band, every other
position reads as before. -/
theorem setBand_getD_band (eq : Equalizer) (index : ℕ) (band : EQBand) (j : ℕ) :
    ((Equalizer.setBand eq index band).sections.getD j EqSection.fresh).band
      = if j = index then band else (eq.sections.getD j EqSection.fresh).band := by
  rw [setBand_eq_pre]
  unfold Equalizer.updateCoefficients
  rw [getD_map_coeffs_band, getD_set_eq_ite]
  rcases eq_or_ne j index with rfl | hj
  · rw [if_pos ⟨rfl, setBandPre_lt_length eq j⟩, if_pos rfl]
  · rw [if_neg (fun hc => hj hc.1.symm), if_neg hj]
    exact congrArg EqSection.band (setBandPre_getD eq index j)


/-- Coefficients after `setBand`: every in-range section's coefficients are
recomputed from its (possibly new) band at the fixed 48 kHz rate. -/
theorem setBand_getD_coeffs (eq : Equalizer) (index : ℕ) (band : EQBand) (j : ℕ)
    (hj : j < (Equalizer.setBand eq index band).sections.length) :
    ((Equalizer.setBand eq index band).sections.getD j EqSection.fresh).coeffs
      = Equalizer.calculateCoeffs
          (((Equalizer.setBand eq index band).sections.getD j EqSection.fresh).band) 48000 := by
  rw [setBand_eq_pre] at hj ⊢
  unfold Equalizer.updateCoefficients at hj ⊢
  simp only [List.length_map] at hj
  rw [getD_map_coeffs_coeffs _ _ _ hj, getD_map_coeffs_band]


/-! Claim C6: behaviour of `Equalizer::setBand`. -/

/-- Claim C6 (amended): `setBand(i, b)` resizes the cascade to at least `i+1`
sections, stores the band at `i`, and recomputes the coefficients of every
section; it leaves the filter state of every pre-existing section — including
section `i` itself — unchanged, and the sections created by the resize start
with zero state (the default read `EqSection.fresh` carries the zero state). -/
theorem C6_setBand_behaviour (eq : Equalizer) (index : ℕ) (band : EQBand) :
    (Equalizer.setBand eq index band).sections.length
        = max (index + 1) eq.sections.length ∧
    (∀ j, ((Equalizer.setBand eq index band).sections.getD j EqSection.fresh).state
        = (eq.sections.getD j EqSection.fresh).state) ∧
    (∀ j, ((Equalizer.setBand eq index band).sections.getD j EqSection.fresh).band
        = if j = index then band else (eq.sections.getD j EqSection.fresh).band) ∧
    (∀ j, j < (Equalizer.setBand eq index band).sections.length →
      ((Equalizer.setBand eq index band).sections.getD j EqSection.fresh).coeffs
        = Equalizer.calculateCoeffs
            (((Equalizer.setBand eq index band).sections.getD j EqSection.fresh).band) 48000) :=
  ⟨setBand_length eq index band,
   fun j => setBand_getD_state eq index band j,
   fun j => setBand_getD_band eq index band j,
   fun j hj => setBand_getD_coeffs eq index band j hj⟩

/-- Claim C6 witness: concrete instantiation of `C6_setBand_behaviour` on a
one-section cascade. -/
theorem C6_setBand_behaviour_witness :
    ((Equalizer.setBand ⟨[]⟩ 0 {}).sections.getD 0 EqSection.fresh).coeffs
      = Equalizer.calculateCoeffs
          (((Equalizer.setBand ⟨[]⟩ 0 {}).sections.getD 0 EqSection.fresh).band) 48000 ∧
    ((Equalizer.setBand ⟨[]⟩ 0 {}).sections.getD 0 EqSection.fresh).state
      = (([] : List EqSection).getD 0 EqSection.fresh).state :=
  ⟨(C6_setBand_behaviour ⟨[]⟩ 0 {}).2.2.2 0
      (by rw [(C6_setBand_behaviour ⟨[]⟩ 0 {}).1]; decide),
   (C6_setBand_behaviour ⟨[]⟩ 0 {}).2.1 0⟩

/-- An equalizer that has just processed one sample through one section: its
section-0 state is dirty (`x1 = 1`). -/
noncomputable def dirtyEq : Equalizer :=
  ((Equalizer.setBand ⟨[]⟩ 0 {}).process [1]).2

/-- Claim C6 counterexample: writing a band into an existing dirty section
does NOT reset that section's state to zero, contradicting the claim's
"resets the filter state (x1, x2, y1, y2) of section i to zero". -/
theorem C6_counterexample :
    ((Equalizer.setBand dirtyEq 0 {}).sections.getD 0 EqSection.fresh).state
      ≠ ({} : BiquadState) := by
  intro h
  have hx1 : ((Equalizer.setBand dirtyEq 0 {}).sections.getD 0 EqSection.fresh).state.x1
      = 1 := rfl
  rw [h] at hx1
  have hx0 : (0 : ℝ) = 1 := hx1
  exact zero_ne_one hx0

/-! Claim C8: `setBand` performs no parameter validation. -/

/-- A band whose Q violates the specification's stability bound `Q ≥ 1e-3`. -/
noncomputable def badQBand : EQBand := { q := 1e-4 }

/-- Claim C8 counterexample: a band with `q = 1e-4 < 1e-3` is not rejected:
`setBand` stores it and compiles it into biquad coefficients, so no
`InvalidParameter` error surfaces to the caller. -/
theorem C8_counterexample :
    ((Equalizer.setBand ⟨[]⟩ 0 badQBand).sections.getD 0 EqSection.fresh).band = badQBand ∧
    ((Equalizer.setBand ⟨[]⟩ 0 badQBand).sections.getD 0 EqSection.fresh).coeffs
      = Equalizer.calculateCoeffs badQBand 48000 ∧
    badQBand.q < 1e-3 :=
  ⟨rfl, rfl, by norm_num [badQBand]⟩

/-- Claim C8 (amended): `Equalizer.setBand` performs no validation at all:
every band — whatever its `q` or `frequency` — is accepted, stored at its
index and compiled into filter coefficients; the code has no error path. -/
theorem C8_setBand_no_validation (eq : Equalizer) (index : ℕ) (band : EQBand) :
    ((Equalizer.setBand eq index band).sections.getD index EqSection.fresh).band = band ∧
    ((Equalizer.setBand eq index band).sections.getD index EqSection.fresh).coeffs
      = Equalizer.calculateCoeffs band 48000 := by
  have hband := setBand_getD_band eq index band index
  rw [if_pos rfl] at hband
  refine ⟨hband, ?_⟩
  have hlen : index < (Equalizer.setBand eq index band).sections.length := by
    rw [setBand_length]
    exact Nat.lt_of_lt_of_le (Nat.lt_succ_self index) (le_max_left _ _)
  rw [setBand_getD_coeffs eq index band index hlen, hband]

/-! Claim C9: spectrum-analyzer bin mapping. -/

/-- Claim C9 counterexample: at `hz = 40`, `fs = 48000`, `M = 2048` the
quotient is `1.706…`; the code truncates it to bin 1 while the claimed
`round` yields 2. -/
theorem C9_counterexample :
    SpectrumAnalyzer.getFrequencyBin 2048 40 48000 = 1 ∧
    round ((40 : ℚ) * ((2048 : ℕ) : ℚ) / (48000 : ℚ)) = 2 ∧
    (SpectrumAnalyzer.getFrequencyBin 2048 40 48000 : ℤ)
      ≠ round ((40 : ℚ) * ((2048 : ℕ) : ℚ) / (48000 : ℚ)) := by
  refine ⟨?_, ?_, ?_⟩
  · norm_num [SpectrumAnalyzer.getFrequencyBin]
  · rw [round_eq]
    norm_num
  · norm_num [SpectrumAnalyzer.getFrequencyBin, round_eq]

/-- Claim C9 (amended): `getFrequencyBin(hz, fs)` is the truncation
`⌊hz·M/fs⌋` of the exact quotient (the `static_cast<size_t>` of the C++), so
the bin is characterized by `bin ≤ hz·M/fs < bin + 1`; `getBinFrequency`
returns `bin·fs/M` exactly as claimed. -/
theorem C9_bin_mapping (M : ℕ) (hz fs : ℚ) (bin : ℕ) (hhz : 0 ≤ hz) (hfs : 0 < fs) :
    ((SpectrumAnalyzer.getFrequencyBin M hz fs : ℚ)) ≤ hz * (M : ℚ) / fs ∧
    hz * (M : ℚ) / fs < (SpectrumAnalyzer.getFrequencyBin M hz fs : ℚ) + 1 ∧
    SpectrumAnalyzer.getBinFrequency M bin fs = (bin : ℚ) * fs / (M : ℚ) := by
  have hv : (0 : ℚ) ≤ hz * (M : ℚ) / fs :=
    div_nonneg (mul_nonneg hhz (by positivity)) (le_of_lt hfs)
  have hfl : (0 : ℤ) ≤ ⌊hz * (M : ℚ) / fs⌋ := Int.floor_nonneg.mpr hv
  have hcast : ((SpectrumAnalyzer.getFrequencyBin M hz fs : ℤ) : ℚ)
      = ((⌊hz * (M : ℚ) / fs⌋ : ℤ) : ℚ) := by
    unfold SpectrumAnalyzer.getFrequencyBin
    rw [Int.toNat_of_nonneg hfl]
  refine ⟨?_, ?_, rfl⟩
  · calc ((SpectrumAnalyzer.getFrequencyBin M hz fs : ℕ) : ℚ)
        = ((⌊hz * (M : ℚ) / fs⌋ : ℤ) : ℚ) := by exact_mod_cast hcast
      _ ≤ hz * (M : ℚ) / fs := Int.floor_le _
  · calc hz * (M : ℚ) / fs
        < ((⌊hz * (M : ℚ) / fs⌋ : ℤ) : ℚ) + 1 := Int.lt_floor_add_one _
      _ = ((SpectrumAnalyzer.getFrequencyBin M hz fs : ℕ) : ℚ) + 1 := by
          exact_mod_cast congrArg (fun x => x + (1 : ℚ)) hcast.symm

/-- Claim C9 witness: the amended statement at `hz = 40`, `fs = 48000`,
`M = 2048`, `bin = 3`. -/
theorem C9_bin_mapping_witness :
    ((SpectrumAnalyzer.getFrequencyBin 2048 40 48000 : ℚ)) ≤ 40 * ((2048 : ℕ) : ℚ) / 48000 ∧
    40 * ((2048 : ℕ) : ℚ) / 48000 < (SpectrumAnalyzer.getFrequencyBin 2048 40 48000 : ℚ) + 1 ∧
    SpectrumAnalyzer.getBinFrequency 2048 3 48000 = ((3 : ℕ) : ℚ) * 48000 / ((2048 : ℕ) : ℚ) :=
  C9_bin_mapping 2048 40 48000 3 (by norm_num) (by norm_num)


/-! Claim C7: biquad state continuity across process calls. -/

/-- Running one biquad over a concatenation splits into two sequential runs,
the second starting from the first's final state. -/
theorem bandRun_append (c : BiquadCoeffs) (s : BiquadState) (xs ys : List ℝ) :
    bandRun c s (xs ++ ys) =
      ((bandRun c s xs).1 ++ (bandRun c (bandRun c s xs).2 ys).1,
       (bandRun c (bandRun c s xs).2 ys).2) := by
  induction xs generalizing s with
  | nil => simp [bandRun]
  | cons x xs ih => simp only [List.cons_append, bandRun, List.append_eq, ih, List.nil_append]

/-- Processing an empty block leaves every section untouched. -/
theorem runSections_nil_data (secs : List EqSection) : runSections secs [] = ([], secs) := by
  induction secs with
  | nil => rfl
  | cons sec rest ih => simp [runSections, bandRun, ih]

/-- Running the whole cascade over a concatenation splits into two sequential
cascade runs with the intermediate section states threaded through. -/
theorem runSections_append (secs : List EqSection) (xs ys : List ℝ) :
    runSections secs (xs ++ ys) =
      ((runSections secs xs).1 ++ (runSections (runSections secs xs).2 ys).1,
       (runSections (runSections secs xs).2 ys).2) := by
  induction secs generalizing xs ys with
  | nil => simp [runSections]
  | cons sec rest ih => simp only [runSections, bandRun_append, ih]

/-- Equalizer processing of an empty block is the identity. -/
theorem process_nil (eq : Equalizer) : Equalizer.process eq [] = ([], eq) := by
  unfold Equalizer.process
  rw [runSections_nil_data]

/-- Two-chunk form of state continuity for `Equalizer.process`. -/
theorem process_append (eq : Equalizer) (xs ys : List ℝ) :
    Equalizer.process eq (xs ++ ys)
      = ((Equalizer.process eq xs).1 ++ (Equalizer.process (Equalizer.process eq xs).2 ys).1,
         (Equalizer.process (Equalizer.process eq xs).2 ys).2) := by
  unfold Equalizer.process
  simp only [runSections_append]

/-- Claim C7: splitting an input sequence into any contiguous chunks and
passing them through `Equalizer.process` sequentially produces exactly the
same output samples (and the same final filter states) as processing the
whole sequence in a single call, because each section's `{x1, x2, y1, y2}`
state persists across calls. -/
theorem C7_state_continuity (eq : Equalizer) (chunks : List (List ℝ)) :
    Equalizer.processChunks eq chunks = Equalizer.process eq chunks.flatten := by
  suffices h : ∀ (pre : List ℝ) (e : Equalizer),
      chunks.foldl (fun acc chunk =>
        let p := Equalizer.process acc.2 chunk
        (acc.1 ++ p.1, p.2)) (pre, e)
        = (pre ++ (Equalizer.process e chunks.flatten).1,
           (Equalizer.process e chunks.flatten).2) by
    have h0 := h [] eq
    simp only [List.nil_append] at h0
    unfold Equalizer.processChunks
    rw [h0]
  induction chunks with
  | nil =>
    intro pre e
    simp [process_nil]
  | cons c cs ih =>
    intro pre e
    simp only [List.foldl_cons, List.flatten_cons, process_append]
    rw [ih]
    simp [List.append_assoc]

/-! Claim C5: the compressor's soft-knee static curve. -/

/-- Claim C5: for ratio `R ≥ 1` and knee width `W ≥ 0`, `Compressor::computeGain`
realizes the specification's soft-knee static curve: with
`level_db = 20*log10(max(env, 1e-10))`, the gain reduction is 0 at or below
`T - W/2`, the full-ratio line `(level_db - T)*(1 - 1/R)` at or above
`T + W/2`, and the squared interpolation in the knee; the returned linear
gain is `10^((-gr_db + makeupGain)/20)`. -/
theorem C5_computeGain_softknee (s : CompressorSettings) (env : ℝ)
    (_hR : 1 ≤ s.ratio) (hW : 0 ≤ s.knee) :
    Compressor.computeGain s env
      = (10 : ℝ) ^ ((-(softKneeGR s.threshold s.ratio s.knee
            (20 * Real.logb 10 (max env 1e-10))) + s.makeupGain) / 20) := by
  simp only [Compressor.computeGain, softKneeGR]
  generalize 20 * Real.logb 10 (max env 1e-10) = L
  rcases le_or_lt L (s.threshold - s.knee / 2) with h1 | h1
  · rw [if_neg (by linarith : ¬ s.threshold + s.knee / 2 < L), if_neg (not_lt.mpr h1),
      if_pos h1]
  · rcases lt_or_le (s.threshold + s.knee / 2) L with h2 | h2
    · rw [if_pos h2, if_neg (not_le.mpr h1), if_pos h2.le]
    · have hWpos : 0 < s.knee := by linarith
      rcases eq_or_lt_of_le h2 with heq | hlt
      · have hwid : L - (s.threshold - s.knee / 2) = s.knee := by rw [heq]; ring
        rw [if_neg (not_lt.mpr h2), if_pos h1, if_neg (not_le.mpr h1),
          if_pos (le_of_eq heq.symm), hwid, div_self hWpos.ne']
        norm_num
      · rw [if_neg (not_lt.mpr h2), if_pos h1, if_neg (not_le.mpr h1),
          if_neg (not_le.mpr hlt)]
        congr 1
        ring

/-- Claim C5 witness: the identity instantiated at the default compressor
settings and a unit envelope value. -/
theorem C5_computeGain_softknee_witness :
    Compressor.computeGain {} 1
      = (10 : ℝ) ^ ((-(softKneeGR ({} : CompressorSettings).threshold
            ({} : CompressorSettings).ratio ({} : CompressorSettings).knee
            (20 * Real.logb 10 (max 1 1e-10)))
          + ({} : CompressorSettings).makeupGain) / 20) :=
  C5_computeGain_softknee {} 1 (by norm_num : (1 : ℝ) ≤ 4) (by norm_num : (0 : ℝ) ≤ 2)

/-! Claim C4: shape of the mix-down produced by `AutoMixer::process`. -/

/-- One `addFrom` step preserves the declared shape and the plane lengths of
the destination buffer. -/
theorem addFrom_shape (b o : AudioBuffer) (g : ℝ) (n : ℕ)
    (hrows : ∀ row ∈ b.data, row.length = n) :
    (b.addFrom o g).channels = b.channels ∧
    (b.addFrom o g).samples = b.samples ∧
    (b.addFrom o g).data.length = b.data.length ∧
    ∀ row ∈ (b.addFrom o g).data, row.length = n := by
  refine ⟨rfl, rfl, by simp [AudioBuffer.addFrom], ?_⟩
  intro row hrow
  simp only [AudioBuffer.addFrom, List.mem_map, List.mem_range] at hrow
  obtain ⟨ch, hch, rfl⟩ := hrow
  have hmem : b.data.getD ch [] ∈ b.data := by
    rw [List.getD_eq_getElem _ _ hch]
    exact List.getElem_mem _
  have hlen : (b.data.getD ch []).length = n := hrows _ hmem
  rw [List.getD_eq_getElem?_getD] at hlen
  by_cases hc : ch < min b.channels o.channels
  · simp [hc, hlen]
  · simp [hc, hlen]

/-- Folding `addFrom` steps over any index list preserves the bus shape. -/
theorem foldl_addFrom_shape (f : ℕ → AudioBuffer) (l : List ℕ) (bus : AudioBuffer) (n : ℕ)
    (hrows : ∀ row ∈ bus.data, row.length = n) :
    (l.foldl (fun b i => AudioBuffer.addFrom b (f i) 1) bus).channels = bus.channels ∧
    (l.foldl (fun b i => AudioBuffer.addFrom b (f i) 1) bus).samples = bus.samples ∧
    (l.foldl (fun b i => AudioBuffer.addFrom b (f i) 1) bus).data.length = bus.data.length ∧
    ∀ row ∈ (l.foldl (fun b i => AudioBuffer.addFrom b (f i) 1) bus).data, row.length = n := by
  induction l generalizing bus with
  | nil => exact ⟨rfl, rfl, rfl, hrows⟩
  | cons i is ih =>
    have h1 := addFrom_shape bus (f i) 1 n hrows
    have h2 := ih (bus.addFrom (f i) 1) h1.2.2.2
    simp only [List.foldl_cons]
    exact ⟨h2.1.trans h1.1, h2.2.1.trans h1.2.1, h2.2.2.1.trans h1.2.2.1, h2.2.2.2⟩

/-- The running maximum of `AutoMixer::process` equals the `foldr` maximum of
the track lengths. -/
theorem foldl_max_samples (tracks : List AudioBuffer) (a : ℕ) :
    tracks.foldl (fun m t => max m t.samples) a
      = max a ((tracks.map AudioBuffer.samples).foldr max 0) := by
  induction tracks generalizing a with
  | nil => simp
  | cons t ts ih => simp [ih, max_assoc]

/-- The `foldr` maximum of a nonempty list of naturals is attained. -/
theorem foldr_max_mem (l : List ℕ) (h : l ≠ []) : l.foldr max 0 ∈ l := by
  induction l with
  | nil => cases h rfl
  | cons x xs ih =>
    rcases eq_or_ne xs [] with rfl | hne
    · simp
    · rcases le_total (xs.foldr max 0) x with hle | hle
      · rw [List.foldr_cons, max_eq_left hle]
        exact List.mem_cons_self x xs
      · rw [List.foldr_cons, max_eq_right hle]
        exact List.mem_cons_of_mem _ (ih hne)

/-- Every element is bounded by the `foldr` maximum. -/
theorem le_foldr_max (l : List ℕ) (x : ℕ) (h : x ∈ l) : x ≤ l.foldr max 0 := by
  induction l with
  | nil => cases h
  | cons y ys ih =>
    rcases List.mem_cons.mp h with rfl | hmem
    · exact le_max_left _ _
    · exact le_trans (ih hmem) (le_max_right _ _)

/-- Field projections of `applyGain`. -/
theorem applyGain_channels (b : AudioBuffer) (g : ℝ) : (b.applyGain g).channels = b.channels :=
  rfl

/-- Field projections of `applyGain`, sample count. -/
theorem applyGain_samples (b : AudioBuffer) (g : ℝ) : (b.applyGain g).samples = b.samples :=
  rfl

/-- Sample count of a freshly constructed buffer. -/
theorem newBuffer_samples (c n : ℕ) : (AudioBuffer.new c n).samples = n := rfl

/-- Reading a map over `List.range` at an in-range index. -/
theorem getD_map_range {β : Type} (F : ℕ → β) (N : ℕ) (ch : ℕ) (d : β) (h : ch < N) :
    ((List.range N).map F).getD ch d = F ch := by
  rw [List.getD_eq_getElem?_getD, List.getElem?_map, List.getElem?_range h,
    Option.map_some', Option.getD_some]

/-- Reading a map over `List.range` at an out-of-range index. -/
theorem getD_map_range_out {β : Type} (F : ℕ → β) (N : ℕ) (ch : ℕ) (d : β) (h : N ≤ ch) :
    ((List.range N).map F).getD ch d = d := by
  apply List.getD_eq_default
  simpa using h

/-- Reading any position of a gain-scaled buffer: every read is the original
read times the gain (out-of-range reads give `0 = 0 * g` on both sides). -/
theorem applyGain_read (b : AudioBuffer) (g : ℝ) (ch j : ℕ) :
    (((b.applyGain g).data.getD ch []).getD j 0 : ℝ)
      = (b.data.getD ch []).getD j 0 * g := by
  unfold AudioBuffer.applyGain
  simp only
  have h1 : (b.data.map (fun row => row.map (fun x => x * g))).getD ch []
      = (b.data.getD ch []).map (fun x => x * g) :=
    List.getD_map b.data [] (fun row => row.map (fun x => x * g))
  rw [h1]
  rcases lt_or_le j (b.data.getD ch []).length with hj | hj
  · have hj2 : j < ((b.data.getD ch []).map (fun x => x * g)).length := by simpa using hj
    rw [List.getD_eq_getElem _ _ hj2, List.getElem_map, List.getD_eq_getElem _ _ hj]
  · have hj2 : ((b.data.getD ch []).map (fun x => x * g)).length ≤ j := by simpa using hj
    rw [List.getD_eq_default _ _ hj2, List.getD_eq_default _ _ hj, zero_mul]

/-- Reading any position of the destination after one `addFrom`, for a
well-shaped destination (`data` plane count matching `channels`, planes of
length `samples`): the source is added exactly on the overlap
`ch < min(C, C')`, `j < min(N, N')` and nowhere else. -/
theorem addFrom_read (b o : AudioBuffer) (g : ℝ) (ch j : ℕ)
    (hlen : b.data.length = b.channels)
    (hrows : ∀ row ∈ b.data, row.length = b.samples)
    (hch : ch < b.channels) :
    (((b.addFrom o g).data.getD ch []).getD j 0 : ℝ)
      = (b.data.getD ch []).getD j 0
        + (if ch < o.channels ∧ j < b.samples ∧ j < o.samples
           then (o.data.getD ch []).getD j 0 * g else 0) := by
  have hch' : ch < b.data.length := hlen ▸ hch
  have hrowlen : (b.data.getD ch []).length = b.samples := by
    apply hrows
    rw [List.getD_eq_getElem _ _ hch']
    exact List.getElem_mem _
  unfold AudioBuffer.addFrom
  simp only
  rw [getD_map_range _ _ _ _ hch']
  by_cases hc : ch < min b.channels o.channels
  · rw [if_pos hc]
    rcases lt_or_le j (b.data.getD ch []).length with hj | hj
    · rw [getD_map_range _ _ _ _ hj]
      by_cases hjm : j < min b.samples o.samples
      · rw [if_pos hjm,
          if_pos ⟨(lt_min_iff.mp hc).2, (lt_min_iff.mp hjm).1, (lt_min_iff.mp hjm).2⟩]
      · rw [if_neg hjm,
          if_neg (fun hcon => hjm (lt_min_iff.mpr ⟨hcon.2.1, hcon.2.2⟩)), add_zero]
    · rw [getD_map_range_out _ _ _ _ hj, List.getD_eq_default _ _ hj,
        if_neg (fun hcon => absurd hcon.2.1 (not_lt.mpr (hrowlen ▸ hj))), add_zero]
  · rw [if_neg hc,
      if_neg (fun hcon => hc (lt_min_iff.mpr ⟨hch, hcon.1⟩)), add_zero]

/-- Reading the bus after folding `addFrom` over the indices `0..n-1`: the
result is the initial bus read plus the sum of the per-index contributions,
each contribution vanishing outside its source's channel count and sample
count (the zero-padding of short sources). -/
theorem foldl_addFrom_read (f : ℕ → AudioBuffer) (n : ℕ) (bus : AudioBuffer) (ch j : ℕ)
    (hlen : bus.data.length = bus.channels)
    (hrows : ∀ row ∈ bus.data, row.length = bus.samples)
    (hch : ch < bus.channels) :
    ((((List.range n).foldl (fun b i => AudioBuffer.addFrom b (f i) 1) bus)).data.getD
        ch []).getD j 0
      = (bus.data.getD ch []).getD j 0
        + ∑ i ∈ Finset.range n,
            (if ch < (f i).channels ∧ j < bus.samples ∧ j < (f i).samples
             then ((f i).data.getD ch []).getD j 0 * 1 else 0) := by
  induction n with
  | zero => simp
  | succ m ih =>
    have hsh := foldl_addFrom_shape f (List.range m) bus bus.samples hrows
    rw [List.range_succ, List.foldl_append, List.foldl_cons, List.foldl_nil]
    rw [addFrom_read _ _ _ _ _
      (hsh.2.2.1.trans (hlen.trans hsh.1.symm))
      (fun row hrow => (hsh.2.2.2 row hrow).trans hsh.2.1.symm)
      (by rw [hsh.1]; exact hch)]
    simp only [hsh.2.1]
    rw [ih, Finset.sum_range_succ]
    ring

/-- Claim C4: `AutoMixer::process` always returns a buffer with exactly two
channels (both declared and actual plane count), whose sample count — and the
length of each plane — is the maximum of the input tracks' sample counts
(`0`, hence a `(2, 0)` buffer, for the empty track list); the maximum bounds
every track's length and is attained by some track when the list is
nonempty.  Moreover, at the value level, every output sample is the sum of
the per-track contributions, and a track contributes exactly `0` at every
position at or past its own sample count (zero-padding on the right) and on
every channel beyond its own channel count — in range it contributes its
gain-scaled sample. -/
theorem C4_process_shape (s : AutoMixerSettings) (tracks : List AudioBuffer) :
    (AutoMixer.process s tracks).channels = 2 ∧
    (AutoMixer.process s tracks).samples = (tracks.map AudioBuffer.samples).foldr max 0 ∧
    (AutoMixer.process s tracks).data.length = 2 ∧
    (∀ row ∈ (AutoMixer.process s tracks).data,
      row.length = (tracks.map AudioBuffer.samples).foldr max 0) ∧
    (∀ t ∈ tracks, t.samples ≤ (AutoMixer.process s tracks).samples) ∧
    (tracks ≠ [] → ∃ t ∈ tracks, (AutoMixer.process s tracks).samples = t.samples) ∧
    (∀ ch, ch < 2 → ∀ j,
      ((AutoMixer.process s tracks).channelData ch).getD j 0
        = ∑ i ∈ Finset.range tracks.length,
            (if ch < (tracks.getD i (AudioBuffer.new 0 0)).channels
                ∧ j < (tracks.map AudioBuffer.samples).foldr max 0
                ∧ j < (tracks.getD i (AudioBuffer.new 0 0)).samples
             then ((tracks.getD i (AudioBuffer.new 0 0)).channelData ch).getD j 0
                  * (AutoMixer.analyzeTracks s tracks).trackGains.getD i 0
             else 0)) := by
  rcases eq_or_ne tracks [] with rfl | hne
  · refine ⟨rfl, rfl, rfl, ?_, ?_, ?_, ?_⟩
    · intro row hrow
      have hrow2 : row ∈ List.replicate 2 (List.replicate 0 (0 : ℝ)) := hrow
      rcases List.eq_of_mem_replicate hrow2 with rfl
      simp
    · intro t ht
      cases ht
    · intro hc
      exact absurd rfl hc
    · intro ch _ j
      simp only [List.length_nil, Finset.range_zero, Finset.sum_empty]
      show ((AudioBuffer.new 2 0).channelData ch).getD j 0 = 0
      unfold AudioBuffer.new AudioBuffer.channelData
      simp only
      rw [List.getD_eq_getElem?_getD (List.replicate 2 (List.replicate 0 (0 : ℝ))) ch [],
        List.getElem?_replicate]
      rcases lt_or_le ch 2 with h2 | h2
      · rw [if_pos h2, Option.getD_some]
        simp
      · rw [if_neg (not_lt.mpr h2), Option.getD_none]
        simp
  · have hFalse : tracks.isEmpty = false := by
      cases tracks
      · exact absurd rfl hne
      · rfl
    have hproc : AutoMixer.process s tracks
        = (List.range tracks.length).foldl (fun bus i =>
            AudioBuffer.addFrom bus
              ((tracks.getD i (AudioBuffer.new 0 0)).applyGain
                ((AutoMixer.analyzeTracks s tracks).trackGains.getD i 0)) 1)
          (AudioBuffer.new 2 (tracks.foldl (fun m t => max m t.samples) 0)) := by
      simp only [AutoMixer.process, hFalse, Bool.false_eq_true, if_false]
    have hmax : tracks.foldl (fun m t => max m t.samples) 0
        = (tracks.map AudioBuffer.samples).foldr max 0 := by
      rw [foldl_max_samples]
      exact Nat.zero_max _
    have hrows : ∀ row ∈ (AudioBuffer.new 2
          (tracks.foldl (fun m t => max m t.samples) 0)).data,
        row.length = (tracks.map AudioBuffer.samples).foldr max 0 := by
      intro row hrow
      have hrow2 : row ∈ List.replicate 2
          (List.replicate (tracks.foldl (fun m t => max m t.samples) 0) (0 : ℝ)) := hrow
      rcases List.eq_of_mem_replicate hrow2 with rfl
      rw [List.length_replicate, hmax]
    have hshape := foldl_addFrom_shape
      (fun i => (tracks.getD i (AudioBuffer.new 0 0)).applyGain
        ((AutoMixer.analyzeTracks s tracks).trackGains.getD i 0))
      (List.range tracks.length)
      (AudioBuffer.new 2 (tracks.foldl (fun m t => max m t.samples) 0))
      ((tracks.map AudioBuffer.samples).foldr max 0) hrows
    rw [hproc]
    have hsamples : ((List.range tracks.length).foldl (fun bus i =>
            AudioBuffer.addFrom bus
              ((tracks.getD i (AudioBuffer.new 0 0)).applyGain
                ((AutoMixer.analyzeTracks s tracks).trackGains.getD i 0)) 1)
          (AudioBuffer.new 2 (tracks.foldl (fun m t => max m t.samples) 0))).samples
        = (tracks.map AudioBuffer.samples).foldr max 0 := by
      exact (hshape.2.1).trans hmax
    refine ⟨hshape.1, hsamples, hshape.2.2.1, hshape.2.2.2, ?_, ?_, ?_⟩
    · intro t ht
      rw [hsamples]
      exact le_foldr_max _ _ (List.mem_map_of_mem _ ht)
    · intro _
      have hmapne : tracks.map AudioBuffer.samples ≠ [] := by
        intro hmap
        exact hne (List.map_eq_nil_iff.mp hmap)
      obtain ⟨t, ht, hts⟩ := List.mem_map.mp (foldr_max_mem _ hmapne)
      exact ⟨t, ht, by rw [hsamples, ← hts]⟩
    · intro ch hch j
      have hrows0 : ∀ row ∈ (AudioBuffer.new 2
            (tracks.foldl (fun m t => max m t.samples) 0)).data,
          row.length
            = (AudioBuffer.new 2 (tracks.foldl (fun m t => max m t.samples) 0)).samples := by
        intro row hrow
        have hrow2 : row ∈ List.replicate 2
            (List.replicate (tracks.foldl (fun m t => max m t.samples) 0) (0 : ℝ)) := hrow
        rcases List.eq_of_mem_replicate hrow2 with rfl
        exact List.length_replicate _ _
      have hread := foldl_addFrom_read
        (fun i => (tracks.getD i (AudioBuffer.new 0 0)).applyGain
          ((AutoMixer.analyzeTracks s tracks).trackGains.getD i 0))
        tracks.length
        (AudioBuffer.new 2 (tracks.foldl (fun m t => max m t.samples) 0)) ch j
        rfl hrows0 hch
      have hbus0 : (((AudioBuffer.new 2
            (tracks.foldl (fun m t => max m t.samples) 0)).data.getD ch []).getD j 0 : ℝ)
          = 0 := by
        unfold AudioBuffer.new
        simp only
        rw [List.getD_eq_getElem?_getD (List.replicate 2
            (List.replicate (tracks.foldl (fun m t => max m t.samples) 0) (0 : ℝ))) ch [],
          List.getElem?_replicate, if_pos hch, Option.getD_some]
        rw [List.getD_eq_getElem?_getD]
        simp
      simp only [] at hread
      simp only [AudioBuffer.channelData]
      rw [hread, hbus0, zero_add]
      refine Finset.sum_congr rfl ?_
      intro i _
      simp only [applyGain_channels, applyGain_samples, newBuffer_samples, applyGain_read,
        mul_one, AudioBuffer.channelData, hmax]

/-- Claim C4 witness: shape facts and the value-level render sum instantiated
on a concrete one-track list. -/
theorem C4_process_shape_witness :
    (AutoMixer.process {} [(⟨1, 3, [[1, 0, 2]]⟩ : AudioBuffer)]).channels = 2 ∧
    (⟨1, 3, [[1, 0, 2]]⟩ : AudioBuffer).samples
      ≤ (AutoMixer.process {} [(⟨1, 3, [[1, 0, 2]]⟩ : AudioBuffer)]).samples ∧
    ((AutoMixer.process {} [(⟨1, 3, [[1, 0, 2]]⟩ : AudioBuffer)]).channelData 0).getD 0 0
      = ∑ i ∈ Finset.range 1,
          (if 0 < ([(⟨1, 3, [[1, 0, 2]]⟩ : AudioBuffer)].getD i (AudioBuffer.new 0 0)).channels
              ∧ 0 < 3
              ∧ 0 < ([(⟨1, 3, [[1, 0, 2]]⟩ : AudioBuffer)].getD i
                    (AudioBuffer.new 0 0)).samples
           then (([(⟨1, 3, [[1, 0, 2]]⟩ : AudioBuffer)].getD i
                    (AudioBuffer.new 0 0)).channelData 0).getD 0 0
                * (AutoMixer.analyzeTracks {}
                    [(⟨1, 3, [[1, 0, 2]]⟩ : AudioBuffer)]).trackGains.getD i 0
           else 0) :=
  ⟨(C4_process_shape {} _).1,
   (C4_process_shape {} _).2.2.2.2.1 _ (List.mem_singleton.mpr rfl),
   (C4_process_shape {} _).2.2.2.2.2.2 0 (by norm_num) 0⟩

/-! The `measureLUFS` accumulation loop, shared by claims C3 and C10. -/

/-- The inner sample loop adds the channel's sum of squares and counts one per
sample. -/
theorem lufs_inner_loop (row : List ℝ) (nsamples : ℕ) (a : ℝ × ℕ) :
    (List.range nsamples).foldl (fun (a2 : ℝ × ℕ) i =>
        (a2.1 + row.getD i 0 * row.getD i 0, a2.2 + 1)) a
      = (a.1 + ∑ i ∈ Finset.range nsamples, row.getD i 0 * row.getD i 0, a.2 + nsamples) := by
  induction nsamples generalizing a with
  | zero => simp
  | succ n ih =>
    rw [List.range_succ, List.foldl_append, ih]
    simp [Finset.sum_range_succ, add_assoc]

/-- The full channel loop accumulates the double sum of squares, and its
counter ends at exactly `channels * samples`. -/
theorem lufs_loop (b : AudioBuffer) :
    (List.range b.channels).foldl (fun (a : ℝ × ℕ) ch =>
        (List.range b.samples).foldl (fun (a2 : ℝ × ℕ) i =>
          (a2.1 + (b.channelData ch).getD i 0 * (b.channelData ch).getD i 0, a2.2 + 1)) a)
      ((0 : ℝ), (0 : ℕ))
      = (∑ ch ∈ Finset.range b.channels, ∑ i ∈ Finset.range b.samples,
          (b.channelData ch).getD i 0 * (b.channelData ch).getD i 0,
         b.channels * b.samples) := by
  suffices h : ∀ (nch : ℕ) (a : ℝ × ℕ),
      (List.range nch).foldl (fun (a : ℝ × ℕ) ch =>
        (List.range b.samples).foldl (fun (a2 : ℝ × ℕ) i =>
          (a2.1 + (b.channelData ch).getD i 0 * (b.channelData ch).getD i 0, a2.2 + 1)) a) a
      = (a.1 + ∑ ch ∈ Finset.range nch, ∑ i ∈ Finset.range b.samples,
          (b.channelData ch).getD i 0 * (b.channelData ch).getD i 0,
         a.2 + nch * b.samples) by
    rw [h b.channels ((0 : ℝ), (0 : ℕ))]
    simp
  intro nch
  induction nch with
  | zero =>
    intro a
    simp
  | succ n ih =>
    intro a
    rw [List.range_succ, List.foldl_append, ih]
    simp only [List.foldl_cons, List.foldl_nil]
    rw [lufs_inner_loop]
    simp [Finset.sum_range_succ, add_assoc, Nat.succ_mul]

/-- Closed form of `AutoMixer.measureLUFS`: the loudness is
`-0.691 + 10*log10(meanSquare + 1e-10)` with the mean square being the double
sum of squares over `channels * samples`. -/
theorem measureLUFS_eq (b : AudioBuffer) :
    AutoMixer.measureLUFS b
      = -0.691 + 10 * Real.logb 10 (AudioBuffer.meanSquare b + 1e-10) := by
  simp only [AutoMixer.measureLUFS, AudioBuffer.meanSquare, lufs_loop]

/-- Closed form of the specification-worded floored loudness. -/
theorem specFlooredLUFS_eq (b : AudioBuffer) :
    specFlooredLUFS b
      = -0.691 + 10 * Real.logb 10 (max (AudioBuffer.meanSquare b) 1e-10) := by
  simp only [specFlooredLUFS, AudioBuffer.meanSquare, lufs_loop]

/-! Claim C10: division safety during track analysis. -/

/-- Claim C10 counterexample: the division-by-zero branch of the guarded
analysis is reachable.  The empty track list reaches the zero-track-count
division in `calculateOptimalLevels`, and a `(2, 0)` track reaches the zero
`totalSamples` division in `measureLUFS`. -/
theorem C10_counterexample :
    AutoMixer.calculateOptimalLevelsChecked {} [] = none ∧
    AutoMixer.measureLUFSChecked (AudioBuffer.new 2 0) = none ∧
    AutoMixer.calculateOptimalLevelsChecked {} [AudioBuffer.new 2 0] = none :=
  ⟨rfl, rfl, rfl⟩

/-- Guarded loudness agrees with the unguarded one whenever the track has at
least one sample in at least one channel. -/
theorem measureLUFSChecked_eq (b : AudioBuffer) (h : 0 < b.channels * b.samples) :
    AutoMixer.measureLUFSChecked b = some (AutoMixer.measureLUFS b) := by
  simp only [AutoMixer.measureLUFSChecked, AutoMixer.measureLUFS, lufs_loop]
  rw [if_neg (Nat.pos_iff_ne_zero.mp h)]

/-- Guarded loudness over a whole track list. -/
theorem mapM_measureLUFSChecked (tracks : List AudioBuffer)
    (h : ∀ t ∈ tracks, 0 < t.channels * t.samples) :
    tracks.mapM AutoMixer.measureLUFSChecked = some (tracks.map AutoMixer.measureLUFS) := by
  induction tracks with
  | nil => rfl
  | cons t ts ih =>
    rw [List.mapM_cons, measureLUFSChecked_eq t (h t (List.mem_cons_self t ts)),
      ih (fun u hu => h u (List.mem_cons_of_mem t hu))]
    rfl

/-- Claim C10 (amended): when the track list is nonempty and every track has
`channels * samples > 0`, every division of the analysis path has a nonzero
divisor: the guarded analysis takes no division-by-zero branch and returns
exactly the unguarded result. -/
theorem C10_division_safety (s : AutoMixerSettings) (tracks : List AudioBuffer)
    (hne : tracks ≠ []) (hsz : ∀ t ∈ tracks, 0 < t.channels * t.samples) :
    AutoMixer.calculateOptimalLevelsChecked s tracks
      = some (AutoMixer.calculateOptimalLevels s tracks) := by
  unfold AutoMixer.calculateOptimalLevelsChecked
  rw [mapM_measureLUFSChecked tracks hsz]
  have hlen : ¬ (tracks.map AutoMixer.measureLUFS).length = 0 := by
    simpa using hne
  show (if (tracks.map AutoMixer.measureLUFS).length = 0 then none
    else some ((tracks.map AutoMixer.measureLUFS).map (fun lufs =>
      (10 : ℝ) ^ (max (s.targetLUFS - lufs) (-s.maxGainReduction) / 20)))) = _
  rw [if_neg hlen]
  rfl

/-- Claim C10 witness: the guarded analysis succeeds on a concrete one-sample
mono track. -/
theorem C10_division_safety_witness :
    AutoMixer.calculateOptimalLevelsChecked {} [(⟨1, 1, [[1]]⟩ : AudioBuffer)]
      = some (AutoMixer.calculateOptimalLevels {} [(⟨1, 1, [[1]]⟩ : AudioBuffer)]) :=
  C10_division_safety {} _ (by simp)
    (by
      intro t ht
      rw [List.mem_singleton] at ht
      subst ht
      norm_num)

/-! Claim C3: the per-track gain law. -/

/-- Claim C3 (amended): the per-track linear gain is
`10^(max(target_lufs - L_i, -max_gain_reduction)/20)` with
`L_i = -0.691 + 10*log10(ms_i + 1e-10)` — the `1e-10` is ADDED to the mean
square (as the code does), not used as a floor (as the claim stated). -/
theorem C3_gain_formula (s : AutoMixerSettings) (tracks : List AudioBuffer) (i : ℕ)
    (h : i < tracks.length) :
    (AutoMixer.calculateOptimalLevels s tracks).getD i 0
      = (10 : ℝ) ^ (max (s.targetLUFS
            - (-0.691 + 10 * Real.logb 10
                ((tracks.getD i (AudioBuffer.new 0 0)).meanSquare + 1e-10)))
          (-s.maxGainReduction) / 20) := by
  simp only [AutoMixer.calculateOptimalLevels]
  have hlen : i < ((tracks.map AutoMixer.measureLUFS).map (fun lufs =>
      (10 : ℝ) ^ (max (s.targetLUFS - lufs) (-s.maxGainReduction) / 20))).length := by
    simpa using h
  rw [List.getD_eq_getElem _ _ hlen, List.getElem_map, List.getElem_map,
    List.getD_eq_getElem _ _ h, measureLUFS_eq]

/-- Claim C3 witness: the amended gain law on a concrete one-sample track. -/
theorem C3_gain_formula_witness :
    (AutoMixer.calculateOptimalLevels {} [(⟨1, 1, [[1]]⟩ : AudioBuffer)]).getD 0 0
      = (10 : ℝ) ^ (max (({} : AutoMixerSettings).targetLUFS
            - (-0.691 + 10 * Real.logb 10
                (([(⟨1, 1, [[1]]⟩ : AudioBuffer)].getD 0
                    (AudioBuffer.new 0 0)).meanSquare + 1e-10)))
          (-({} : AutoMixerSettings).maxGainReduction) / 20) :=
  C3_gain_formula {} _ 0 (by norm_num)

/-- A track quiet enough that its mean square is exactly the `1e-10`
threshold, where adding and flooring differ. -/
noncomputable def quietTrack : AudioBuffer := ⟨1, 1, [[1e-5]]⟩

/-- Claim C3 counterexample: on `quietTrack` the code's gains (mean square
plus `1e-10`) differ from the claim's gains (mean square floored at `1e-10`):
`log10(2e-10) ≠ log10(1e-10)` and neither branch is clamped, so the resulting
linear gains differ. -/
theorem C3_counterexample :
    AutoMixer.calculateOptimalLevels {} [quietTrack] ≠ specFlooredGains {} [quietTrack] := by
  have hms : AudioBuffer.meanSquare quietTrack = 1e-10 := by
    simp [AudioBuffer.meanSquare, quietTrack, AudioBuffer.channelData]
    norm_num
  have hcodeL : AutoMixer.measureLUFS quietTrack
      = -0.691 + 10 * Real.logb 10 ((2e-10 : ℝ)) := by
    rw [measureLUFS_eq, hms]
    norm_num
  have hspecL : specFlooredLUFS quietTrack
      = -0.691 + 10 * Real.logb 10 ((1e-10 : ℝ)) := by
    rw [specFlooredLUFS_eq, hms, max_self]
  have hub2 : Real.logb 10 ((2e-10 : ℝ)) ≤ -9 := by
    rw [Real.logb_le_iff_le_rpow (by norm_num) (by norm_num),
      show ((-9 : ℝ)) = -((9 : ℕ) : ℝ) by norm_num, Real.rpow_neg (by norm_num),
      Real.rpow_natCast]
    norm_num
  have hlt : Real.logb 10 ((1e-10 : ℝ)) < Real.logb 10 ((2e-10 : ℝ)) :=
    Real.logb_lt_logb (by norm_num) (by norm_num) (by norm_num)
  have e1 : AutoMixer.calculateOptimalLevels {} [quietTrack]
      = [(10 : ℝ) ^ (max (-16 - AutoMixer.measureLUFS quietTrack) (-(12 : ℝ)) / 20)] := rfl
  have e2 : specFlooredGains {} [quietTrack]
      = [(10 : ℝ) ^ (max (-16 - specFlooredLUFS quietTrack) (-(12 : ℝ)) / 20)] := rfl
  intro heq
  rw [e1, e2] at heq
  have h1 : (10 : ℝ) ^ (max (-16 - AutoMixer.measureLUFS quietTrack) (-(12 : ℝ)) / 20)
      = (10 : ℝ) ^ (max (-16 - specFlooredLUFS quietTrack) (-(12 : ℝ)) / 20) :=
    congrArg (fun l => l.getD 0 0) heq
  have hA : max (-16 - AutoMixer.measureLUFS quietTrack) (-(12 : ℝ))
      = -16 - AutoMixer.measureLUFS quietTrack := by
    apply max_eq_left
    rw [hcodeL]
    linarith
  have hB : max (-16 - specFlooredLUFS quietTrack) (-(12 : ℝ))
      = -16 - specFlooredLUFS quietTrack := by
    apply max_eq_left
    rw [hspecL]
    linarith
  rw [hA, hB] at h1
  have hablt : (-16 - AutoMixer.measureLUFS quietTrack) / 20
      < (-16 - specFlooredLUFS quietTrack) / 20 := by
    rw [hcodeL, hspecL]
    linarith
  exact absurd h1 (ne_of_lt ((Real.rpow_lt_rpow_left_iff (by norm_num)).mpr hablt))

/-! Claim C1: the panning stage of the render path. -/

/-- A one-sample mono unit impulse track. -/
noncomputable def monoImpulse : AudioBuffer := ⟨1, 1, [[1]]⟩

/-- Claim C1 counterexample (code bug): with spatial processing enabled (the
default) and a single mono impulse track the planned pan position is 0, so the
claimed equal-power law demands `left = x*cos(π/4)` and `right = x*sin(π/4)`,
both nonzero.  The rendered right channel is exactly 0 while the left channel
is nonzero: `AutoMixer::process` applies no panning (its body there is the
placeholder comment `Pan processing would go here`). -/
theorem C1_pan_not_applied :
    ((AutoMixer.process {} [monoImpulse]).channelData 1).getD 0 0 = 0 ∧
    ((AutoMixer.process {} [monoImpulse]).channelData 0).getD 0 0 ≠ 0 ∧
    ({} : AutoMixerSettings).enableSpatialProcessing = true := by
  have e : AutoMixer.process {} [monoImpulse]
      = ⟨2, 1, [[0 + 1 * ((AutoMixer.analyzeTracks {} [monoImpulse]).trackGains.getD 0 0) * 1],
          [0]]⟩ := rfl
  have hg : (AutoMixer.analyzeTracks {} [monoImpulse]).trackGains.getD 0 0
      = (10 : ℝ) ^ (max (-16 - AutoMixer.measureLUFS monoImpulse) (-(12 : ℝ)) / 20) := rfl
  have hgpos : 0 < (AutoMixer.analyzeTracks {} [monoImpulse]).trackGains.getD 0 0 := by
    rw [hg]
    exact Real.rpow_pos_of_pos (by norm_num) _
  refine ⟨?_, ?_, rfl⟩
  · rw [e]
    rfl
  · rw [e]
    show (0 + 1 * ((AutoMixer.analyzeTracks {} [monoImpulse]).trackGains.getD 0 0) * 1 : ℝ) ≠ 0
    simp only [zero_add, one_mul, mul_one]
    exact hgpos.ne'

/-! Claim C2: the mix-bus compression stage of the render path. -/

/-- A one-sample stereo track hot enough (`1000` per channel) that, after the
`-12 dB` level-balancing clamp, the planned mix-bus compressor (threshold
`-6 dB`, ratio 2, attack 10 ms) would sit inside its knee and reduce gain. -/
noncomputable def stereoLoud : AudioBuffer := ⟨2, 1, [[1000], [1000]]⟩

/-- Claim C2 (code bug): the buffer returned by `AutoMixer::process` is the
RAW gain-scaled bus sum — each channel carries exactly
`1000 * 10^(-12/20)` with no compression factor — even though the analysis
plans a mix-bus compressor `{threshold = -6, ratio = 2, attack = 10 ms,
release = 100 ms}`; the compression stage of the C++ is the placeholder
comment `Compression would go here`. -/
theorem C2_compressor_not_applied :
    AutoMixer.process {} [stereoLoud]
      = ⟨2, 1, [[1000 * (10 : ℝ) ^ (-(12 : ℝ) / 20)],
          [1000 * (10 : ℝ) ^ (-(12 : ℝ) / 20)]]⟩ ∧
    (AutoMixer.analyzeTracks {} [stereoLoud]).mixBusCompressor.threshold = -6 ∧
    (AutoMixer.analyzeTracks {} [stereoLoud]).mixBusCompressor.ratio = 2 ∧
    (AutoMixer.analyzeTracks {} [stereoLoud]).mixBusCompressor.attack = 10 ∧
    (AutoMixer.analyzeTracks {} [stereoLoud]).mixBusCompressor.release = 100 := by
  have e : AutoMixer.process {} [stereoLoud]
      = ⟨2, 1,
          [[0 + 1000 * ((AutoMixer.analyzeTracks {} [stereoLoud]).trackGains.getD 0 0) * 1],
           [0 + 1000 * ((AutoMixer.analyzeTracks {} [stereoLoud]).trackGains.getD 0 0) * 1]]⟩ :=
    rfl
  have hms : AudioBuffer.meanSquare stereoLoud = 1000000 := by
    simp [AudioBuffer.meanSquare, stereoLoud, AudioBuffer.channelData, Finset.sum_range_succ]
    norm_num
  have hL : AutoMixer.measureLUFS stereoLoud
      = -0.691 + 10 * Real.logb 10 ((1000000 : ℝ) + 1e-10) := by
    rw [measureLUFS_eq, hms]
  have hlb : (0 : ℝ) ≤ Real.logb 10 ((1000000 : ℝ) + 1e-10) :=
    Real.logb_nonneg (by norm_num) (by norm_num)
  have hmax : max (-16 - AutoMixer.measureLUFS stereoLoud) (-(12 : ℝ)) = -(12 : ℝ) := by
    apply max_eq_right
    rw [hL]
    linarith
  have hgval : (AutoMixer.analyzeTracks {} [stereoLoud]).trackGains.getD 0 0
      = (10 : ℝ) ^ (-(12 : ℝ) / 20) := by
    have hgd : (AutoMixer.analyzeTracks {} [stereoLoud]).trackGains.getD 0 0
        = (10 : ℝ) ^ (max (-16 - AutoMixer.measureLUFS stereoLoud) (-(12 : ℝ)) / 20) := rfl
    rw [hgd, hmax]
  refine ⟨?_, rfl, rfl, rfl, rfl⟩
  rw [e, hgval]
  norm_num

end AudioBlend
